import Mathlib

/-!
Verification development for the `psql_utils` repository (`epsql.py`).

We shallowly embed the two core components and the helpers the claims are
about:

* the highest-overlap crosswalk builder
  (`ConnectionExtensions.add_highest_overlap_crosswalk`),
* the chunked geocoding worker (`Engine.geocode_chunk_in_place`) and the
  chunk partitioning of the coordinator (`Engine.geocode_in_place`),
* the legacy list-mode batch geocoder (`Engine.geocode_batch`),
* the SQL statement texts and parameter channels of the geocode and
  crosswalk calls.

Geometries are modelled as axis-aligned rectangles on the integer grid,
which is enough to express the spatial predicates the SQL uses
(`st_intersects`, `st_touches`, `st_area(st_intersection(..))`) and all the
scenarios the spec describes (any finite-precision rectangle embeds by
scaling).  Tables are lists of records; SQL statements are embedded
as Lean functions from table states to table states.
-/

namespace Epsql

/-! ## Geometry: axis-aligned rectangles on the integer grid -/

/-- An axis-aligned rectangle `[x0,x1] × [y0,y1]`, the polygon shape used by
the spec's test scenarios. -/
structure Rect where
  x0 : ℤ
  x1 : ℤ
  y0 : ℤ
  y1 : ℤ
deriving DecidableEq

/-- PostGIS `st_intersects` on rectangles: the closed rectangles share at
least one point. -/
def st_intersects (a b : Rect) : Bool :=
  max a.x0 b.x0 ≤ min a.x1 b.x1 && max a.y0 b.y0 ≤ min a.y1 b.y1

/-- The interiors of the two rectangles share a point. -/
def interiorsOverlap (a b : Rect) : Bool :=
  max a.x0 b.x0 < min a.x1 b.x1 && max a.y0 b.y0 < min a.y1 b.y1

/-- PostGIS `st_touches` on rectangles: the rectangles intersect but their
interiors are disjoint. -/
def st_touches (a b : Rect) : Bool :=
  st_intersects a b && !interiorsOverlap a b

/-- PostGIS `st_area(st_intersection(a, b))` on rectangles. -/
def interArea (a b : Rect) : ℤ :=
  max 0 (min a.x1 b.x1 - max a.x0 b.x0) * max 0 (min a.y1 b.y1 - max a.y0 b.y0)

/-! ## Crosswalk builder (`ConnectionExtensions.add_highest_overlap_crosswalk`)

The builder receives destination and source table/column names, runs

```
create temp table tmp as
  select distinct on (dest_id) dest.<dest_row_id> as dest_id, src.<src_col> as src_id
    from <src_table> as src join <dest_table> as dest
    on st_intersects(src.geom, dest.geom) and not st_touches(src.geom, dest.geom)
    [where <range condition>]
    order by dest_id, st_area(st_intersection(src.geom, dest.geom)) desc;
update <dest_table> as dest set <dest_new_col> = tmp.src_id
  from tmp where dest.<dest_row_id> = tmp.dest_id [and <range condition>];
```

We embed the tables as record lists and the two statements as functions.
Row ids are strings (the id columns hold text such as census geoids, and the
interpolated range bounds are compared as text literals). -/

/-- A row of the source table: the unique id column (`src_col`) and the
geometry. -/
structure SrcRow where
  src_id : String
  geom : Rect
deriving DecidableEq

/-- A row of the destination table: the id column (`dest_row_id`), the
geometry, the crosswalk column `dest_new_col` (nullable text), and the row's
remaining columns abstracted into one field. -/
structure DestRow where
  dest_id : String
  geom : Rect
  dest_new_col : Option String
  other_cols : String
deriving DecidableEq

/-- Python truthiness of an optional string argument, as used by
`if dest_row_id_min:` / `if dest_row_id_max:`. -/
def truthy : Option String → Bool
  | none => false
  | some s => !(s == "")

/-- The conjunction of the optional `where_clauses` range filters on the
destination id: each truthy bound contributes
`dest.<dest_row_id> >= '<min>'` resp. `dest.<dest_row_id> <= '<max>'`. -/
def inRange (bmin bmax : Option String) (id : String) : Bool :=
  (if truthy bmin then bmin.getD "" ≤ id else true) &&
  (if truthy bmax then id ≤ bmax.getD "" else true)

/-- The join predicate of the crosswalk query:
`st_intersects(src.geom, dest.geom) and not st_touches(src.geom, dest.geom)`. -/
def qualifies (s : SrcRow) (d : DestRow) : Bool :=
  st_intersects s.geom d.geom && !st_touches s.geom d.geom

/-- A row of the temporary crosswalk table together with the intersection
area its `order by` uses. -/
structure TmpRow where
  dest_id : String
  src_id : String
  area : ℤ
deriving DecidableEq

/-- The joined rows `from src join dest on <qualifies> where <range>`,
before `distinct on` collapses them. -/
def joinedRows (srcs : List SrcRow) (dests : List DestRow)
    (bmin bmax : Option String) : List TmpRow :=
  dests.flatMap fun d =>
    if inRange bmin bmax d.dest_id then
      (srcs.filter fun s => qualifies s d).map fun s =>
        ⟨d.dest_id, s.src_id, interArea s.geom d.geom⟩
    else []

/-- Running best candidate under `order by st_area(..) desc`: keep the row of
strictly larger area; on an exact area tie keep the incumbent (one fixed
instance of the engine-dependent tie order). -/
def bestRow : Option TmpRow → TmpRow → Option TmpRow
  | none, r => some r
  | some b, r => if b.area < r.area then some r else some b

/-- `select distinct on (dest_id) ... order by dest_id, st_area(..) desc`:
one row per distinct destination id, holding a maximal-area candidate for
that id. -/
def distinctOnDest (rows : List TmpRow) : List TmpRow :=
  ((rows.map TmpRow.dest_id).dedup).filterMap fun k =>
    (rows.filter fun r => r.dest_id == k).foldl bestRow none

/-- The effect of the final update on one destination row: it is rewritten
exactly when the temp table holds a row with its id and it passes the range
condition (`where dest.<dest_row_id> = tmp.dest_id and <range condition>`). -/
def updateRow (tmp : List TmpRow) (bmin bmax : Option String) (d : DestRow) : DestRow :=
  match tmp.find? fun r => r.dest_id == d.dest_id with
  | some r =>
      if inRange bmin bmax d.dest_id then { d with dest_new_col := some r.src_id } else d
  | none => d

/-- The final statement
`update dest set dest_new_col = tmp.src_id from tmp
 where dest.<dest_row_id> = tmp.dest_id and <range condition>`. -/
def applyCrosswalk (dests : List DestRow) (tmp : List TmpRow)
    (bmin bmax : Option String) : List DestRow :=
  dests.map (updateRow tmp bmin bmax)

/-- `ConnectionExtensions.add_highest_overlap_crosswalk`: build the
`distinct on` temp table from the spatial join and apply it to the
destination table.  (The `alter table add if not exists` step only creates
the nullable column; our `DestRow` already carries it.) -/
def add_highest_overlap_crosswalk (dests : List DestRow) (srcs : List SrcRow)
    (bmin bmax : Option String) : List DestRow :=
  applyCrosswalk dests (distinctOnDest (joinedRows srcs dests bmin bmax)) bmin bmax

/-- The `dest_new_col` value a build leaves on the destination row with the
given id (`none` when no row has the id; `some v` with the row's nullable
column value otherwise). -/
def assignedVal (dests : List DestRow) (srcs : List SrcRow)
    (bmin bmax : Option String) (id : String) : Option (Option String) :=
  ((add_highest_overlap_crosswalk dests srcs bmin bmax).find? fun d =>
    d.dest_id == id).map DestRow.dest_new_col

/-! ## Chunked geocoding worker (`Engine.geocode_chunk_in_place`) -/

/-- A point geometry (the worker stores `st_transform(g.geomout, 4326)`). -/
abbrev Pt := ℚ × ℚ

/-- A row of an address table handed to the geocoder: unique integer `idx`,
the address text, and the three nullable result columns. -/
structure AddrRow where
  idx : Int
  full_address : String
  geocode_rating : Option Int
  normalized_full_address : Option String
  geom : Option Pt
deriving DecidableEq

/-- One hit returned by the TIGER `geocode(...)` SQL function (the worker
requests at most one). -/
structure GeocodeHit where
  rating : Int
  addy : String
  geomout : Pt
deriving DecidableEq

/-- The external spatial-database functions the worker invokes; the core
merely calls them. -/
structure GeoEnv where
  geocode : String → Option GeocodeHit
  pagc_normalize_address : String → String
  pprint_addy : String → String
  st_transform4326 : Pt → Pt

/-- The interpolated range condition of `geocode_chunk_in_place`.  With
`begin_idx = None` the condition is the empty string, whatever `end_idx`
is.  With `begin_idx` set, the f-string interpolates both bounds as
`<begin> <= idx and idx <= <end>`; if `end_idx` is `None`, the literal text
`None` lands in the SQL, which does not parse — the statement errors,
modelled as `none`. -/
def chunkCondition : Option Int → Option Int → Option (Int → Bool)
  | none, _ => some fun _ => true
  | some b, some e => some fun i => b ≤ i && i ≤ e
  | some _, none => none

/-- The rows the worker stages, i.e. the inner select
`where geocode_rating is null <condition>` (empty list when the statement
errors).  The inner `order by idx` only fixes the staging order, which the
keyed update below never observes; we keep table order. -/
def selectedRows (tbl : List AddrRow) (begin_idx end_idx : Option Int) : List AddrRow :=
  match chunkCondition begin_idx end_idx with
  | some cond => tbl.filter fun r => r.geocode_rating.isNone && cond r.idx
  | none => []

/-- A row of the worker's temporary table:
`idx, coalesce(g.rating, -1) as geocode_rating, pprint_addy(g.addy), st_transform(g.geomout, 4326)`. -/
structure GeoTmpRow where
  idx : Int
  geocode_rating : Int
  normalized_full_address : Option String
  geom : Option Pt
deriving DecidableEq

/-- The staged temp row for one selected address row: left join lateral
against `geocode(pagc_normalize_address(full_address), 1)`; a missing hit
leaves the lateral columns null, so `coalesce` yields the sentinel `-1` and
the other two columns stay null. -/
def stageRow (env : GeoEnv) (r : AddrRow) : GeoTmpRow :=
  match env.geocode (env.pagc_normalize_address r.full_address) with
  | some h =>
      { idx := r.idx, geocode_rating := h.rating,
        normalized_full_address := some (env.pprint_addy h.addy),
        geom := some (env.st_transform4326 h.geomout) }
  | none =>
      { idx := r.idx, geocode_rating := -1,
        normalized_full_address := none, geom := none }

/-- `Engine.geocode_chunk_in_place`: stage the selected rows into the temp
table, then
`update t set (geocode_rating, normalized_full_address, geom) = (g...) from tmp as g where t.idx = g.idx`.
Returns `none` when the interpolated range condition is malformed (see
`chunkCondition`), in which case the statement raises and the table is not
modified. -/
def geocode_chunk_in_place (env : GeoEnv) (tbl : List AddrRow)
    (begin_idx end_idx : Option Int) : Option (List AddrRow) :=
  (chunkCondition begin_idx end_idx).map fun cond =>
    let temp := (tbl.filter fun r => r.geocode_rating.isNone && cond r.idx).map (stageRow env)
    tbl.map fun t =>
      match temp.find? fun g => g.idx == t.idx with
      | some g =>
          { t with geocode_rating := some g.geocode_rating,
                   normalized_full_address := g.normalized_full_address,
                   geom := g.geom }
      | none => t

/-! ## Coordinator chunk partitioning (`Engine.geocode_in_place`) -/

/-- Python `range(start, stop, step)` for a positive step. -/
def pyRange (start stop step : Int) : List Int :=
  (List.range ((stop - start + step - 1) / step).toNat).map
    fun (k : ℕ) => start + (k : Int) * step

/-- The chunk list of `Engine.geocode_in_place`: starts
`range(min_idx, max_idx + 1, chunk_size)`, and each start `k` is submitted
as the worker range `[k, min(k + chunk_size - 1, max_idx)]`. -/
def geocodeChunks (min_idx max_idx chunk_size : Int) : List (Int × Int) :=
  (pyRange min_idx (max_idx + 1) chunk_size).map fun k =>
    (k, min (k + chunk_size - 1) max_idx)

/-! ## Legacy list-mode batch geocoder (`Engine.geocode_batch`)

`geocode_batch` preallocates `ret = [None] * len(addresses)`, sets a shared
cursor `i = len(addresses)`, and starts `nthreads` workers.  Each worker
loops: under the mutex it returns if `i == 0` and otherwise claims
`mine = (i := i - 1)`; outside the mutex it writes
`ret[mine] = con.geocode(addresses[mine], ...)` and loops.  We model this as
a small-step transition system: a worker is idle (about to take the mutex),
holding a claimed index (about to write it), or returned.  A step is one
mutex-protected claim, one result write, or one exit-on-empty; any
interleaving of workers is a path of steps.  `α` stands for the row set one
`con.geocode` call returns. -/

/-- The status of one worker thread of `geocode_batch`. -/
inductive WStat where
  | idle : WStat
  | holding : Nat → WStat
  | returned : WStat
deriving DecidableEq

/-- The shared state of a `geocode_batch` run: the cursor `i`, the results
array `ret`, and the worker statuses. -/
structure BatchState (α : Type) where
  counter : Nat
  results : List (Option α)
  workers : List WStat
deriving DecidableEq

/-- The state right after `geocode_batch` allocates `ret` and starts the
workers. -/
def batchInit (α : Type) (n nthreads : Nat) : BatchState α :=
  ⟨n, List.replicate n none, List.replicate nthreads WStat.idle⟩

/-- One scheduler step of a `geocode_batch` run with geocoder `g` over the
input list `addrs`. -/
inductive BatchStep {α : Type} (g : String → α) (addrs : List String) :
    BatchState α → BatchState α → Prop where
  | claim (s : BatchState α) (w k : Nat)
      (hw : s.workers[w]? = some WStat.idle) (hc : s.counter = k + 1) :
      BatchStep g addrs s ⟨k, s.results, s.workers.set w (WStat.holding k)⟩
  | write (s : BatchState α) (w m : Nat)
      (hw : s.workers[w]? = some (WStat.holding m)) :
      BatchStep g addrs s
        ⟨s.counter, s.results.set m (some (g (addrs.getD m ""))),
         s.workers.set w WStat.idle⟩
  | exitEmpty (s : BatchState α) (w : Nat)
      (hw : s.workers[w]? = some WStat.idle) (hc : s.counter = 0) :
      BatchStep g addrs s ⟨0, s.results, s.workers.set w WStat.returned⟩

/-- Every worker thread has returned: the final join of `geocode_batch` has
completed. -/
def allReturned {α : Type} (s : BatchState α) : Prop :=
  ∀ w ∈ s.workers, w = WStat.returned

/-! ## Statement texts and parameter channels

`ConnectionExtensions.geocode` executes a fixed statement text with the
address and result limit supplied through the named-parameter channel
(`%(address)s`, `%(max_results)s`).  The crosswalk builder and the chunk
worker build their statement text by f-string interpolation and execute it
with an empty parameter channel.  We embed the executed call as the pair
(statement text, parameters). -/

/-- The statement text of `ConnectionExtensions.geocode` (the `latlon_only`
variant; the full variant differs only in more joined columns and likewise
contains only the two placeholders). -/
def geocode_sql : String :=
  "SELECT rating, geomout, to_jsonb((addy)) as addy " ++
  "FROM geocode(pagc_normalize_address(%(address)s), %(max_results)s) As g;"

/-- The call `ConnectionExtensions.geocode` makes to the statement executor:
the fixed text plus the named parameters `address` and `max_results`. -/
def geocode_call (address : String) (max_results : Int) :
    String × (String × Int) :=
  (geocode_sql, (address, max_results))

/-- The `where_clauses` list of `add_highest_overlap_crosswalk`: each truthy
bound value is interpolated into a quoted comparison against the id column. -/
def whereClauses (dest_row_id : String) (bmin bmax : Option String) : List String :=
  (if truthy bmin then ["dest." ++ dest_row_id ++ " >= '" ++ bmin.getD "" ++ "'"] else []) ++
  (if truthy bmax then ["dest." ++ dest_row_id ++ " <= '" ++ bmax.getD "" ++ "'"] else [])

/-- `where_cond = " and ".join(where_clauses)`. -/
def whereCond (dest_row_id : String) (bmin bmax : Option String) : String :=
  String.intercalate " and " (whereClauses dest_row_id bmin bmax)

/-- The statement text `cmd` of `add_highest_overlap_crosswalk`, built by
f-string interpolation of the identifiers, the temp-table name and the
range-bound values (inside `where_cond`). -/
def crosswalk_cmd (dest_table_name dest_row_id dest_new_col src_table_name
    src_col tmp_table_name : String) (bmin bmax : Option String) : String :=
  let wc := whereCond dest_row_id bmin bmax
  "create temp table " ++ tmp_table_name ++ " on commit drop as " ++
  "select distinct on (dest_id) dest." ++ dest_row_id ++ " as dest_id, src." ++
  src_col ++ " as src_id from " ++ src_table_name ++ " as src join " ++
  dest_table_name ++ " as dest " ++
  "on st_intersects(src.geom, dest.geom) and not st_touches(src.geom, dest.geom) " ++
  (if wc == "" then "" else "where " ++ wc) ++
  " order by dest_id, st_area(st_intersection(src.geom, dest.geom)) desc; " ++
  "create index " ++ tmp_table_name ++ "_idx on " ++ tmp_table_name ++ " (dest_id); " ++
  "update " ++ dest_table_name ++ " as dest set " ++ dest_new_col ++
  " = tmp.src_id from " ++ tmp_table_name ++ " as tmp where dest." ++
  dest_row_id ++ " = tmp.dest_id " ++
  (if wc == "" then "" else "and " ++ wc) ++ ";"

/-- The call `add_highest_overlap_crosswalk` makes to the statement
executor: `self.execute_update(cmd, verbose=True)` — the interpolated text
and an empty parameter channel. -/
def crosswalk_call (dest_table_name dest_row_id dest_new_col src_table_name
    src_col tmp_table_name : String) (bmin bmax : Option String) :
    String × List String :=
  (crosswalk_cmd dest_table_name dest_row_id dest_new_col src_table_name
    src_col tmp_table_name bmin bmax, [])

/-- The value `v` appears verbatim inside the statement text `s`. -/
def appearsInText (v s : String) : Prop :=
  ∃ p q : List Char, s.data = p ++ v.data ++ q

/-- Run invariant of `geocode_batch`: the results array keeps its length,
the cursor never exceeds it, every index at or above the cursor is either
already written with its own address's geocode result or held by a worker,
a held index is at or above the cursor and in bounds, and once any worker
has returned the cursor is zero. -/
def batchInv {α : Type} (g : String → α) (addrs : List String) (nthreads : Nat)
    (s : BatchState α) : Prop :=
  s.results.length = addrs.length ∧
  s.workers.length = nthreads ∧
  s.counter ≤ addrs.length ∧
  (∀ k : Nat, s.counter ≤ k → k < addrs.length →
    s.results[k]? = some (some (g (addrs.getD k ""))) ∨
      ∃ w : Nat, s.workers[w]? = some (WStat.holding k)) ∧
  (∀ w m : Nat, s.workers[w]? = some (WStat.holding m) → s.counter ≤ m ∧ m < addrs.length) ∧
  ((∃ w : Nat, s.workers[w]? = some WStat.returned) → s.counter = 0)

/-! ## Helper lemmas -/

theorem interiorsOverlap_area_pos {a b : Rect} (h : interiorsOverlap a b = true) :
    0 < interArea a b := by
  simp only [interiorsOverlap, Bool.and_eq_true, decide_eq_true_eq] at h
  obtain ⟨h1, h2⟩ := h
  have l1 : (0:ℤ) < min a.x1 b.x1 - max a.x0 b.x0 := by linarith
  have l2 : (0:ℤ) < min a.y1 b.y1 - max a.y0 b.y0 := by linarith
  unfold interArea
  rw [max_eq_right l1.le, max_eq_right l2.le]
  exact mul_pos l1 l2

theorem area_zero_no_overlap {a b : Rect} (h : interArea a b = 0) :
    interiorsOverlap a b = false := by
  cases hov : interiorsOverlap a b with
  | false => rfl
  | true => exact absurd h (ne_of_gt (interiorsOverlap_area_pos hov))

theorem stageRow_idx (env : GeoEnv) (r : AddrRow) : (stageRow env r).idx = r.idx := by
  unfold stageRow
  cases env.geocode (env.pagc_normalize_address r.full_address) <;> rfl

/-! ## C2: the coordinator's chunk partitioning -/

/-- C2: for every index domain `[min_idx, max_idx]` and chunk size `c > 0`,
the chunks `geocode_in_place` submits are pairwise disjoint index ranges
whose union covers `[min_idx, max_idx]` exactly. -/
theorem geocode_in_place_chunk_partition (min_idx max_idx c : Int)
    (hc : 0 < c) (hmm : min_idx ≤ max_idx) :
    (geocodeChunks min_idx max_idx c).Pairwise
      (fun p q => ∀ x : Int, p.1 ≤ x ∧ x ≤ p.2 → ¬(q.1 ≤ x ∧ x ≤ q.2)) ∧
    (∀ x : Int, (min_idx ≤ x ∧ x ≤ max_idx) ↔
      ∃ p ∈ geocodeChunks min_idx max_idx c, p.1 ≤ x ∧ x ≤ p.2) := by
  set n : ℕ := ((max_idx + 1 - min_idx + c - 1) / c).toNat with hndef
  have hchunks : geocodeChunks min_idx max_idx c =
      (List.range n).map
        (fun (k : ℕ) => (min_idx + (k:ℤ) * c, min (min_idx + (k:ℤ) * c + c - 1) max_idx)) := by
    simp only [geocodeChunks, pyRange, List.map_map]
    rfl
  have h0 : (0:ℤ) ≤ max_idx + 1 - min_idx + c - 1 := by omega
  have hncast : (n:ℤ) = (max_idx + 1 - min_idx + c - 1) / c :=
    Int.toNat_of_nonneg (Int.ediv_nonneg h0 hc.le)
  have hnc : max_idx + 1 - min_idx ≤ (n:ℤ) * c := by
    have hid := Int.ediv_add_emod (max_idx + 1 - min_idx + c - 1) c
    have hmod := Int.emod_lt_of_pos (max_idx + 1 - min_idx + c - 1) hc
    rw [hncast, mul_comm]
    linarith
  constructor
  · rw [hchunks, List.pairwise_map]
    refine (List.pairwise_lt_range n).imp ?_
    intro k l hkl x hxk hxl
    have hx2 : x ≤ min_idx + (k:ℤ) * c + c - 1 := le_trans hxk.2 (min_le_left _ _)
    have hx3 : min_idx + (l:ℤ) * c ≤ x := hxl.1
    have hcast : ((k:ℤ) + 1) ≤ (l:ℤ) := by exact_mod_cast hkl
    have hmul : ((k:ℤ) + 1) * c ≤ (l:ℤ) * c := mul_le_mul_of_nonneg_right hcast hc.le
    have hexp : ((k:ℤ) + 1) * c = (k:ℤ) * c + c := by ring
    linarith
  · intro x
    constructor
    · rintro ⟨hx1, hx2⟩
      have hid := Int.ediv_add_emod (x - min_idx) c
      have hr0 := Int.emod_nonneg (x - min_idx) (ne_of_gt hc)
      have hrc := Int.emod_lt_of_pos (x - min_idx) hc
      set q : ℤ := (x - min_idx) / c with hqdef
      have hq0 : 0 ≤ q := Int.ediv_nonneg (by omega) hc.le
      have hqle : q * c ≤ x - min_idx := by
        have := mul_comm q c
        linarith
      have hqge : x - min_idx ≤ q * c + c - 1 := by
        have := mul_comm q c
        linarith
      have hqn : q < (n:ℤ) := by
        have h1 : q * c < (n:ℤ) * c := by linarith
        exact lt_of_mul_lt_mul_right h1 hc.le
      have hn0 : n ≠ 0 := by
        by_contra hz
        rw [hz] at hqn
        omega
      have hqtn : (q.toNat : ℤ) = q := Int.toNat_of_nonneg hq0
      refine ⟨(min_idx + (q.toNat:ℤ) * c, min (min_idx + (q.toNat:ℤ) * c + c - 1) max_idx),
        ?_, ?_, ?_⟩
      · rw [hchunks]
        exact List.mem_map.mpr ⟨q.toNat, List.mem_range.mpr ((Int.toNat_lt' hn0).mpr hqn), rfl⟩
      · show min_idx + (q.toNat:ℤ) * c ≤ x
        rw [hqtn]
        linarith
      · show x ≤ min (min_idx + (q.toNat:ℤ) * c + c - 1) max_idx
        exact le_min (by rw [hqtn]; linarith) hx2
    · rintro ⟨p, hp, hpx1, hpx2⟩
      rw [hchunks] at hp
      obtain ⟨k, _, rfl⟩ := List.mem_map.mp hp
      dsimp only at hpx1 hpx2
      constructor
      · have hkc : (0:ℤ) ≤ (k:ℤ) * c := mul_nonneg (Int.natCast_nonneg k) hc.le
        linarith
      · exact le_trans hpx2 (min_le_right _ _)

/-- C2 witness: the partition theorem applied to the concrete domain
`[0, 4]` with chunk size 2. -/
theorem geocode_in_place_chunk_partition_witness :
    (0:Int) < 2 ∧ (0:Int) ≤ 4 ∧
    ((geocodeChunks 0 4 2).Pairwise
      (fun p q => ∀ x : Int, p.1 ≤ x ∧ x ≤ p.2 → ¬(q.1 ≤ x ∧ x ≤ q.2)) ∧
     (∀ x : Int, ((0:Int) ≤ x ∧ x ≤ 4) ↔
       ∃ p ∈ geocodeChunks 0 4 2, p.1 ≤ x ∧ x ≤ p.2)) :=
  ⟨by norm_num, by norm_num, geocode_in_place_chunk_partition 0 4 2 (by norm_num) (by norm_num)⟩

/-! ## C10: `begin_idx = None` ignores `end_idx` -/

/-- C10: when the chunk worker is invoked with `begin_idx = None`, the range
condition is empty whatever `end_idx` is, so the invocation equals the
whole-table invocation and the selection is every not-yet-rated row. -/
theorem geocode_chunk_begin_none (env : GeoEnv) (tbl : List AddrRow) (e : Option Int) :
    geocode_chunk_in_place env tbl none e = geocode_chunk_in_place env tbl none none ∧
    selectedRows tbl none e = tbl.filter (fun r => r.geocode_rating.isNone) := by
  constructor
  · rfl
  · simp [selectedRows, chunkCondition]

/-! ## C6: the chunked geocoder is idempotent -/

/-- C6: after a successful chunk run, a second run with the same bounds
selects zero rows (no selected row still has a null `geocode_rating`) and
leaves the table exactly as the first run left it. -/
theorem geocode_chunk_idempotent (env : GeoEnv) (tbl t' : List AddrRow) (b e : Option Int)
    (h : geocode_chunk_in_place env tbl b e = some t') :
    selectedRows t' b e = [] ∧ geocode_chunk_in_place env t' b e = some t' := by
  cases hcc : chunkCondition b e with
  | none =>
    rw [geocode_chunk_in_place, hcc] at h
    simp at h
  | some cond =>
    rw [geocode_chunk_in_place, hcc] at h
    simp only [Option.map_some'] at h
    injection h with h
    have key : ∀ r ∈ t', (r.geocode_rating.isNone && cond r.idx) = false := by
      intro r hr
      rw [← h] at hr
      obtain ⟨t, ht, rfl⟩ := List.mem_map.mp hr
      cases hf : ((tbl.filter fun r => r.geocode_rating.isNone && cond r.idx).map
          (stageRow env)).find? (fun g => g.idx == t.idx) with
      | some g => simp [hf]
      | none =>
        simp only [hf]
        cases hsel : t.geocode_rating.isNone && cond t.idx with
        | false => rfl
        | true =>
          exfalso
          have hmem : stageRow env t ∈ (tbl.filter fun r =>
              r.geocode_rating.isNone && cond r.idx).map (stageRow env) :=
            List.mem_map.mpr ⟨t, List.mem_filter.mpr ⟨ht, hsel⟩, rfl⟩
          have := List.find?_eq_none.mp hf _ hmem
          rw [stageRow_idx] at this
          simp at this
    have hfilter : t'.filter (fun r => r.geocode_rating.isNone && cond r.idx) = [] :=
      List.filter_eq_nil_iff.mpr (by intro a ha; rw [key a ha]; simp)
    refine ⟨?_, ?_⟩
    · rw [selectedRows, hcc]
      exact hfilter
    · rw [geocode_chunk_in_place, hcc]
      simp only [Option.map_some', hfilter, List.map_nil, List.find?_nil, Option.some.injEq]
      exact List.map_id' t'

/-- C6 witness: a concrete one-row table whose only row gets the sentinel
rating in the first run; the second run selects nothing and changes
nothing. -/
theorem geocode_chunk_idempotent_witness :
    selectedRows [⟨0, "a", some (-1), none, none⟩] (some 0) (some 0) = [] ∧
    geocode_chunk_in_place ⟨fun _ => none, fun s => s, fun s => s, fun p => p⟩
      [⟨0, "a", some (-1), none, none⟩] (some 0) (some 0) =
      some [⟨0, "a", some (-1), none, none⟩] :=
  geocode_chunk_idempotent ⟨fun _ => none, fun s => s, fun s => s, fun p => p⟩
    [⟨0, "a", none, none, none⟩] [⟨0, "a", some (-1), none, none⟩]
    (some 0) (some 0) (by rfl)

/-! ## C7: no-match rows get the sentinel rating -/

/-- C7: a selected row whose geocode lookup returns no match is written with
the non-null sentinel rating `-1` together with null normalized-address and
geometry columns, all in the one keyed update, and the resulting row is
never again selected as pending by `geocode_rating is null`. -/
theorem geocode_chunk_no_match_sentinel (env : GeoEnv) (tbl t' : List AddrRow)
    (b e : Option Int) (cond : Int → Bool) (i : Nat) (r : AddrRow)
    (hcc : chunkCondition b e = some cond)
    (hget : tbl[i]? = some r)
    (hnodup : (tbl.map AddrRow.idx).Nodup)
    (hnull : r.geocode_rating = none)
    (hin : cond r.idx = true)
    (hmiss : env.geocode (env.pagc_normalize_address r.full_address) = none)
    (ht' : geocode_chunk_in_place env tbl b e = some t') :
    t'[i]? = some { r with geocode_rating := some (-1),
                           normalized_full_address := none, geom := none } ∧
    ∀ b' e', { r with geocode_rating := some (-1),
                      normalized_full_address := none, geom := none } ∉
      selectedRows t' b' e' := by
  rw [geocode_chunk_in_place, hcc] at ht'
  simp only [Option.map_some', Option.some.injEq] at ht'
  have hrmem : r ∈ tbl := by
    obtain ⟨hlt, hr⟩ := List.getElem?_eq_some.mp hget
    exact hr ▸ List.getElem_mem hlt
  have hrp : (r.geocode_rating.isNone && cond r.idx) = true := by
    rw [hnull, hin]
    rfl
  have hsr : stageRow env r = ⟨r.idx, -1, none, none⟩ := by
    unfold stageRow
    rw [hmiss]
  have hfind : ((tbl.filter fun a => a.geocode_rating.isNone && cond a.idx).map
      (stageRow env)).find? (fun g => g.idx == r.idx) = some (stageRow env r) := by
    cases hf : ((tbl.filter fun a => a.geocode_rating.isNone && cond a.idx).map
        (stageRow env)).find? (fun g => g.idx == r.idx) with
    | none =>
      exfalso
      have hmem : stageRow env r ∈ (tbl.filter fun a =>
          a.geocode_rating.isNone && cond a.idx).map (stageRow env) :=
        List.mem_map.mpr ⟨r, List.mem_filter.mpr ⟨hrmem, hrp⟩, rfl⟩
      have := List.find?_eq_none.mp hf _ hmem
      rw [stageRow_idx] at this
      simp at this
    | some g =>
      have hg := List.find?_some hf
      obtain ⟨t0, ht0mem, rfl⟩ := List.mem_map.mp (List.mem_of_find?_eq_some hf)
      have ht0 : t0 ∈ tbl := (List.mem_filter.mp ht0mem).1
      have hidx : t0.idx = r.idx := by
        rw [← stageRow_idx env t0]
        exact beq_iff_eq.mp hg
      rw [List.inj_on_of_nodup_map hnodup ht0 hrmem hidx]
  constructor
  · rw [← ht', List.getElem?_map, hget, Option.map_some']
    simp only [hfind, hsr]
  · intro b' e' hmem
    unfold selectedRows at hmem
    cases hcc' : chunkCondition b' e' <;> rw [hcc'] at hmem
    · simp at hmem
    · have := (List.mem_filter.mp hmem).2
      simp at this

/-- C7 witness: a one-row table with a no-match address receives the
sentinel row and is never selected again. -/
theorem geocode_chunk_no_match_sentinel_witness :
    ([⟨0, "a", some (-1), none, none⟩] : List AddrRow)[0]? =
      some ⟨0, "a", some (-1), none, none⟩ ∧
    ∀ b' e', (⟨0, "a", some (-1), none, none⟩ : AddrRow) ∉
      selectedRows [⟨0, "a", some (-1), none, none⟩] b' e' :=
  geocode_chunk_no_match_sentinel ⟨fun _ => none, fun s => s, fun s => s, fun p => p⟩
    [⟨0, "a", none, none, none⟩] [⟨0, "a", some (-1), none, none⟩] none none
    (fun _ => true) 0 ⟨0, "a", none, none, none⟩ rfl rfl (by simp) rfl rfl rfl rfl

/-! ## Crosswalk helper lemmas -/

theorem foldl_bestRow_mem : ∀ (L : List TmpRow) (acc : Option TmpRow) (r : TmpRow),
    L.foldl bestRow acc = some r → r ∈ L ∨ acc = some r := by
  intro L
  induction L with
  | nil => intro acc r h; exact Or.inr h
  | cons x xs ih =>
    intro acc r h
    rw [List.foldl_cons] at h
    rcases ih (bestRow acc x) r h with h1 | h1
    · exact Or.inl (List.mem_cons_of_mem _ h1)
    · cases acc with
      | none =>
        simp only [bestRow, Option.some.injEq] at h1
        exact Or.inl (h1 ▸ List.mem_cons_self x xs)
      | some b =>
        by_cases hlt : b.area < x.area
        · simp only [bestRow, if_pos hlt, Option.some.injEq] at h1
          exact Or.inl (h1 ▸ List.mem_cons_self x xs)
        · simp only [bestRow, if_neg hlt, Option.some.injEq] at h1
          exact Or.inr (by rw [h1])

theorem foldl_bestRow_max : ∀ (L : List TmpRow) (acc : Option TmpRow) (r : TmpRow),
    L.foldl bestRow acc = some r →
    (∀ a ∈ L, a.area ≤ r.area) ∧ (∀ b, acc = some b → b.area ≤ r.area) := by
  intro L
  induction L with
  | nil =>
    intro acc r h
    refine ⟨?_, ?_⟩
    · intro a ha
      cases ha
    intro b hb
    rw [hb] at h
    injection h with h
    rw [h]
  | cons x xs ih =>
    intro acc r h
    rw [List.foldl_cons] at h
    obtain ⟨hL, hacc⟩ := ih (bestRow acc x) r h
    have hx : x.area ≤ r.area := by
      cases acc with
      | none => exact hacc x rfl
      | some b =>
        by_cases hlt : b.area < x.area
        · exact hacc x (by simp [bestRow, if_pos hlt])
        · exact le_trans (le_of_not_lt hlt) (hacc b (by simp [bestRow, if_neg hlt]))
    refine ⟨?_, ?_⟩
    · intro a ha
      rcases List.mem_cons.mp ha with rfl | ha'
      · exact hx
      · exact hL a ha'
    · intro b hb
      subst hb
      by_cases hlt : b.area < x.area
      · exact le_trans hlt.le hx
      · exact hacc b (by simp [bestRow, if_neg hlt])

theorem foldl_bestRow_isSome : ∀ (L : List TmpRow) (acc : Option TmpRow),
    L ≠ [] ∨ acc.isSome = true → (L.foldl bestRow acc).isSome = true := by
  intro L
  induction L with
  | nil =>
    intro acc h
    rcases h with h | h
    · exact absurd rfl h
    · exact h
  | cons x xs ih =>
    intro acc _
    rw [List.foldl_cons]
    refine ih (bestRow acc x) (Or.inr ?_)
    cases acc with
    | none => rfl
    | some b =>
      by_cases hlt : b.area < x.area <;> simp [bestRow, hlt]

theorem foldl_bestRow_filter_key (rows : List TmpRow) (k : String) (r : TmpRow)
    (h : (rows.filter fun t => t.dest_id == k).foldl bestRow none = some r) :
    r.dest_id = k ∧ r ∈ rows := by
  rcases foldl_bestRow_mem _ _ _ h with hm | hm
  · have hm' := List.mem_filter.mp hm
    exact ⟨beq_iff_eq.mp hm'.2, hm'.1⟩
  · cases hm

theorem distinctOnDest_sub (rows : List TmpRow) (r : TmpRow)
    (h : r ∈ distinctOnDest rows) : r ∈ rows := by
  unfold distinctOnDest at h
  obtain ⟨k, _, hfk⟩ := List.mem_filterMap.mp h
  exact (foldl_bestRow_filter_key rows k r hfk).2

theorem find?_filterMap_keys (f : String → Option TmpRow)
    (hf : ∀ k r, f k = some r → r.dest_id = k) :
    ∀ (ks : List String), ks.Nodup → ∀ k ∈ ks,
      (ks.filterMap f).find? (fun r => r.dest_id == k) = f k := by
  intro ks
  induction ks with
  | nil => intro _ k hk; cases hk
  | cons k0 t ih =>
    intro hnd k hk
    obtain ⟨hk0, hndt⟩ := List.nodup_cons.mp hnd
    rcases List.mem_cons.mp hk with rfl | hkt
    · cases hfk : f k with
      | some r =>
        rw [List.filterMap_cons_some hfk]
        exact List.find?_cons_of_pos _ (by rw [hf k r hfk]; exact beq_self_eq_true k)
      | none =>
        rw [List.filterMap_cons_none hfk, List.find?_eq_none]
        intro x hx
        obtain ⟨k', hk't, hfk'⟩ := List.mem_filterMap.mp hx
        rw [hf k' x hfk']
        simp only [beq_iff_eq]
        exact fun hh => hk0 (hh ▸ hk't)
    · have hne : k ≠ k0 := fun h => hk0 (h ▸ hkt)
      cases hfk0 : f k0 with
      | some r0 =>
        rw [List.filterMap_cons_some hfk0, List.find?_cons_of_neg]
        · exact ih hndt k hkt
        · rw [hf k0 r0 hfk0]
          simp only [beq_iff_eq]
          exact fun hh => hne hh.symm
      | none =>
        rw [List.filterMap_cons_none hfk0]
        exact ih hndt k hkt

theorem mem_joinedRows {srcs : List SrcRow} {dests : List DestRow}
    {bmin bmax : Option String} {r : TmpRow}
    (h : r ∈ joinedRows srcs dests bmin bmax) :
    ∃ d ∈ dests, ∃ s ∈ srcs, qualifies s d = true ∧
      inRange bmin bmax d.dest_id = true ∧
      r = ⟨d.dest_id, s.src_id, interArea s.geom d.geom⟩ := by
  unfold joinedRows at h
  obtain ⟨d, hd, hr⟩ := List.mem_flatMap.mp h
  by_cases hir : inRange bmin bmax d.dest_id = true
  · rw [if_pos hir] at hr
    obtain ⟨s, hs, rfl⟩ := List.mem_map.mp hr
    have hsq := List.mem_filter.mp hs
    exact ⟨d, hd, s, hsq.1, hsq.2, hir, rfl⟩
  · rw [if_neg hir] at hr
    cases hr

theorem find?_dest_id_of_nodup (dests : List DestRow) (d : DestRow)
    (hd : d ∈ dests) (hnd : (dests.map DestRow.dest_id).Nodup) :
    dests.find? (fun d' => d'.dest_id == d.dest_id) = some d := by
  induction dests with
  | nil => cases hd
  | cons d0 rest ih =>
    rw [List.map_cons] at hnd
    obtain ⟨h0, hrest⟩ := List.nodup_cons.mp hnd
    rcases List.mem_cons.mp hd with rfl | hdr
    · exact List.find?_cons_of_pos _ (beq_self_eq_true _)
    · have hne : ¬(d0.dest_id == d.dest_id) = true := by
        simp only [beq_iff_eq]
        intro hh
        exact h0 (hh ▸ List.mem_map.mpr ⟨d, hdr, rfl⟩)
      rw [@List.find?_cons_of_neg _ (fun d' => d'.dest_id == d.dest_id) d0 rest hne]
      exact ih hdr hrest

theorem updateRow_dest_id (tmp : List TmpRow) (bmin bmax : Option String) (d : DestRow) :
    (updateRow tmp bmin bmax d).dest_id = d.dest_id := by
  unfold updateRow
  cases tmp.find? fun r => r.dest_id == d.dest_id with
  | none => rfl
  | some r => by_cases h : inRange bmin bmax d.dest_id = true <;> simp [h]

theorem joinedRows_filter_key (srcs : List SrcRow) (dests : List DestRow) (d : DestRow)
    (hd : d ∈ dests) (hndd : (dests.map DestRow.dest_id).Nodup) :
    (joinedRows srcs dests none none).filter (fun r => r.dest_id == d.dest_id) =
      (srcs.filter fun s => qualifies s d).map
        (fun s => ⟨d.dest_id, s.src_id, interArea s.geom d.geom⟩) := by
  induction dests with
  | nil => cases hd
  | cons d0 rest ih =>
    rw [List.map_cons] at hndd
    obtain ⟨h0, hrest⟩ := List.nodup_cons.mp hndd
    unfold joinedRows
    rw [List.flatMap_cons, List.filter_append]
    have hblock : ∀ d1 : DestRow, d1.dest_id ≠ d.dest_id →
        ((if inRange none none d1.dest_id then
            (srcs.filter fun s => qualifies s d1).map
              (fun s => (⟨d1.dest_id, s.src_id, interArea s.geom d1.geom⟩ : TmpRow))
          else []).filter (fun r => r.dest_id == d.dest_id)) = [] := by
      intro d1 hne
      apply List.filter_eq_nil_iff.mpr
      intro a ha
      have hir : inRange none none d1.dest_id = true := rfl
      rw [if_pos hir] at ha
      obtain ⟨s, _, rfl⟩ := List.mem_map.mp ha
      simp only [beq_iff_eq]
      exact fun hh => hne hh
    rcases List.mem_cons.mp hd with rfl | hdr
    · have htail : (rest.flatMap fun d1 =>
          if inRange none none d1.dest_id then
            (srcs.filter fun s => qualifies s d1).map
              (fun s => (⟨d1.dest_id, s.src_id, interArea s.geom d1.geom⟩ : TmpRow))
          else []).filter (fun r => r.dest_id == d.dest_id) = [] := by
        apply List.filter_eq_nil_iff.mpr
        intro a ha
        obtain ⟨d1, hd1, ha'⟩ := List.mem_flatMap.mp ha
        have hir : inRange none none d1.dest_id = true := rfl
        rw [if_pos hir] at ha'
        obtain ⟨s, _, rfl⟩ := List.mem_map.mp ha'
        simp only [beq_iff_eq]
        intro hh
        exact h0 (hh ▸ List.mem_map.mpr ⟨d1, hd1, rfl⟩)
      have hir : inRange none none d.dest_id = true := rfl
      rw [htail, List.append_nil, if_pos hir, List.filter_eq_self.mpr]
      intro a ha
      obtain ⟨s, _, rfl⟩ := List.mem_map.mp ha
      exact beq_self_eq_true _
    · have hne : d0.dest_id ≠ d.dest_id := by
        intro hh
        exact h0 (hh ▸ List.mem_map.mpr ⟨d, hdr, rfl⟩)
      rw [hblock d0 hne, List.nil_append]
      have := ih hdr hrest
      unfold joinedRows at this
      exact this

theorem filterMap_keys_nodup (f : String → Option TmpRow)
    (hf : ∀ k r, f k = some r → r.dest_id = k) :
    ∀ ks : List String, ks.Nodup → ((ks.filterMap f).map TmpRow.dest_id).Nodup := by
  intro ks
  induction ks with
  | nil => intro _; exact List.nodup_nil
  | cons k0 t ih =>
    intro hnd
    obtain ⟨h0, hndt⟩ := List.nodup_cons.mp hnd
    cases hfk : f k0 with
    | none => rw [List.filterMap_cons_none hfk]; exact ih hndt
    | some r =>
      rw [List.filterMap_cons_some hfk, List.map_cons]
      refine List.Nodup.cons ?_ (ih hndt)
      intro hmem
      obtain ⟨x, hx, hxid⟩ := List.mem_map.mp hmem
      obtain ⟨k', hk't, hfk'⟩ := List.mem_filterMap.mp hx
      rw [hf k' x hfk'] at hxid
      rw [hf k0 r hfk] at hxid
      exact h0 (hxid ▸ hk't)

/-! ## C3: touching-only pairs are never mapped -/

/-- C3: a source/destination pair whose geometries intersect with zero
intersection area (touching-only contact) never contributes a row to the
crosswalk mapping: the join predicate
`st_intersects and not st_touches` excludes it. -/
theorem crosswalk_touching_only_excluded (srcs : List SrcRow) (dests : List DestRow)
    (bmin bmax : Option String) (s : SrcRow) (d : DestRow)
    (hs : s ∈ srcs) (hd : d ∈ dests)
    (hnds : (srcs.map SrcRow.src_id).Nodup) (hndd : (dests.map DestRow.dest_id).Nodup)
    (hint : st_intersects s.geom d.geom = true)
    (harea : interArea s.geom d.geom = 0) :
    (distinctOnDest (joinedRows srcs dests bmin bmax)).all
      (fun r => !(r.dest_id == d.dest_id && r.src_id == s.src_id)) = true := by
  have hq : qualifies s d = false := by
    have hov := area_zero_no_overlap harea
    unfold qualifies st_touches
    rw [hint, hov]
    rfl
  rw [List.all_eq_true]
  intro r hr
  cases hb : (r.dest_id == d.dest_id && r.src_id == s.src_id) with
  | false => rfl
  | true =>
    exfalso
    simp only [Bool.and_eq_true] at hb
    obtain ⟨hb1, hb2⟩ := hb
    obtain ⟨d', hd', s', hs', hq', _, rfl⟩ :=
      mem_joinedRows (distinctOnDest_sub _ r hr)
    have hdd : d' = d :=
      List.inj_on_of_nodup_map hndd hd' hd (beq_iff_eq.mp hb1)
    have hss : s' = s :=
      List.inj_on_of_nodup_map hnds hs' hs (beq_iff_eq.mp hb2)
    rw [hdd, hss] at hq'
    rw [hq'] at hq
    cases hq

/-- C3 witness: the spec's scenario — destination square `[0,1]²` and source
square `[1,2] × [0,1]` share only an edge; the mapping stays empty of that
pair. -/
theorem crosswalk_touching_only_excluded_witness :
    st_intersects (⟨1, 2, 0, 1⟩ : Rect) ⟨0, 1, 0, 1⟩ = true ∧
    interArea (⟨1, 2, 0, 1⟩ : Rect) ⟨0, 1, 0, 1⟩ = 0 ∧
    (distinctOnDest (joinedRows [⟨"S", ⟨1, 2, 0, 1⟩⟩]
        [⟨"D", ⟨0, 1, 0, 1⟩, none, ""⟩] none none)).all
      (fun r => !(r.dest_id == "D" && r.src_id == "S")) = true :=
  ⟨by decide, by decide,
    crosswalk_touching_only_excluded [⟨"S", ⟨1, 2, 0, 1⟩⟩]
      [⟨"D", ⟨0, 1, 0, 1⟩, none, ""⟩] none none ⟨"S", ⟨1, 2, 0, 1⟩⟩
      ⟨"D", ⟨0, 1, 0, 1⟩, none, ""⟩ (by decide) (by decide) (by decide) (by decide)
      (by decide) (by decide)⟩

/-! ## C4: each destination id appears at most once in the mapping -/

/-- C4: in the temp crosswalk mapping a single build produces, every
destination id appears at most once — `distinct on (dest_id)` keeps one row
per destination id, so no destination row can receive two different
`dest_new_col` values from one invocation. -/
theorem crosswalk_mapping_dest_ids_nodup (srcs : List SrcRow) (dests : List DestRow)
    (bmin bmax : Option String) :
    ((distinctOnDest (joinedRows srcs dests bmin bmax)).map TmpRow.dest_id).Nodup := by
  unfold distinctOnDest
  exact filterMap_keys_nodup _
    (fun k r h => (foldl_bestRow_filter_key _ k r h).1) _ (List.nodup_dedup _)

/-! ## C5: the range filter frames the update -/

/-- C5: a build with range bounds leaves every destination row outside the
range untouched (even if it has qualifying overlaps), and likewise leaves
every row with no qualifying intersecting source untouched — all its
columns, `dest_new_col` included, keep their prior values. -/
theorem crosswalk_range_frame (dests : List DestRow) (srcs : List SrcRow)
    (bmin bmax : Option String) (i : Nat) (d : DestRow)
    (hget : dests[i]? = some d) :
    (inRange bmin bmax d.dest_id = false →
      (add_highest_overlap_crosswalk dests srcs bmin bmax)[i]? = some d) ∧
    ((dests.map DestRow.dest_id).Nodup → (∀ s ∈ srcs, qualifies s d = false) →
      (add_highest_overlap_crosswalk dests srcs bmin bmax)[i]? = some d) := by
  have hgoal : (add_highest_overlap_crosswalk dests srcs bmin bmax)[i]? =
      some (updateRow (distinctOnDest (joinedRows srcs dests bmin bmax)) bmin bmax d) := by
    unfold add_highest_overlap_crosswalk applyCrosswalk
    rw [List.getElem?_map, hget, Option.map_some']
  have hdmem : d ∈ dests := by
    obtain ⟨hlt, hr⟩ := List.getElem?_eq_some.mp hget
    exact hr ▸ List.getElem_mem hlt
  constructor
  · intro hout
    rw [hgoal]
    unfold updateRow
    cases (distinctOnDest (joinedRows srcs dests bmin bmax)).find?
        (fun r => r.dest_id == d.dest_id) with
    | none => rfl
    | some r =>
      show some (if inRange bmin bmax d.dest_id then
        { d with dest_new_col := some r.src_id } else d) = some d
      rw [if_neg (by rw [hout]; exact Bool.false_ne_true)]
  · intro hnd hnoq
    rw [hgoal]
    have hfind : (distinctOnDest (joinedRows srcs dests bmin bmax)).find?
        (fun r => r.dest_id == d.dest_id) = none := by
      rw [List.find?_eq_none]
      intro r hr
      obtain ⟨d', hd', s', hs', hq', _, rfl⟩ :=
        mem_joinedRows (distinctOnDest_sub _ r hr)
      simp only [beq_iff_eq]
      intro hh
      have hdd : d' = d := List.inj_on_of_nodup_map hnd hd' hdmem hh
      rw [hdd] at hq'
      rw [hnoq s' hs'] at hq'
      cases hq'
    unfold updateRow
    rw [hfind]

/-- C5 witness: a destination row with id `"05"` below the range
`["10", "20"]` keeps its row unchanged even though a source fully overlaps
it. -/
theorem crosswalk_range_frame_witness :
    inRange (some "10") (some "20") "05" = false ∧
    (add_highest_overlap_crosswalk [⟨"05", ⟨0, 1, 0, 1⟩, none, "x"⟩]
        [⟨"S", ⟨0, 1, 0, 1⟩⟩] (some "10") (some "20"))[0]? =
      some ⟨"05", ⟨0, 1, 0, 1⟩, none, "x"⟩ := by
  have h1 : ¬(("10":String) ≤ "05") := by
    rw [String.le_iff_toList_le]
    decide
  have hout : inRange (some "10") (some "20") "05" = false := by
    simp [inRange, truthy, h1]
  exact ⟨hout,
    (crosswalk_range_frame [⟨"05", ⟨0, 1, 0, 1⟩, none, "x"⟩] [⟨"S", ⟨0, 1, 0, 1⟩⟩]
      (some "10") (some "20") 0 ⟨"05", ⟨0, 1, 0, 1⟩, none, "x"⟩ rfl).1 hout⟩

/-! ## C1: the unique maximal-overlap source is assigned, deterministically -/

/-- C1: if a destination row has a unique qualifying source row of maximal
(necessarily nonzero) intersection area, one build invocation assigns that
source's id to its `dest_new_col`, and the assignment is the same for every
order in which the engine could scan the source table — i.e. re-running the
builder on the same inputs reproduces it. -/
theorem crosswalk_unique_max_assigned (dests : List DestRow) (srcs srcs' : List SrcRow)
    (d : DestRow) (s0 : SrcRow)
    (hd : d ∈ dests) (hndd : (dests.map DestRow.dest_id).Nodup)
    (hs : s0 ∈ srcs) (hq : qualifies s0 d = true)
    (hmax : ∀ s ∈ srcs, qualifies s d = true → s ≠ s0 →
      interArea s.geom d.geom < interArea s0.geom d.geom)
    (hperm : srcs'.Perm srcs) :
    0 < interArea s0.geom d.geom ∧
    assignedVal dests srcs' none none d.dest_id = some (some s0.src_id) := by
  constructor
  · have hov : interiorsOverlap s0.geom d.geom = true := by
      unfold qualifies st_touches at hq
      cases hovc : interiorsOverlap s0.geom d.geom with
      | true => rfl
      | false =>
        rw [hovc] at hq
        cases hint : st_intersects s0.geom d.geom <;> rw [hint] at hq <;> simp at hq
    exact interiorsOverlap_area_pos hov
  · have hs0' : s0 ∈ srcs' := hperm.mem_iff.mpr hs
    have hs0f : s0 ∈ srcs'.filter (fun s => qualifies s d) := List.mem_filter.mpr ⟨hs0', hq⟩
    have hgrp : (joinedRows srcs' dests none none).filter (fun r => r.dest_id == d.dest_id) =
        (srcs'.filter fun s => qualifies s d).map
          (fun s => ⟨d.dest_id, s.src_id, interArea s.geom d.geom⟩) :=
      joinedRows_filter_key srcs' dests d hd hndd
    have ht0mem : (⟨d.dest_id, s0.src_id, interArea s0.geom d.geom⟩ : TmpRow) ∈
        (joinedRows srcs' dests none none).filter (fun r => r.dest_id == d.dest_id) := by
      rw [hgrp]
      exact List.mem_map.mpr ⟨s0, hs0f, rfl⟩
    -- the group fold returns a row, and that row is s0's
    cases hfold : ((joinedRows srcs' dests none none).filter
        (fun r => r.dest_id == d.dest_id)).foldl bestRow none with
    | none =>
      exfalso
      have := foldl_bestRow_isSome
        ((joinedRows srcs' dests none none).filter (fun r => r.dest_id == d.dest_id)) none
        (Or.inl (by intro hnil; rw [hnil] at ht0mem; cases ht0mem))
      rw [hfold] at this
      cases this
    | some rbest =>
      have hbmax := (foldl_bestRow_max _ _ _ hfold).1
      have hbmem : rbest ∈ (joinedRows srcs' dests none none).filter
          (fun r => r.dest_id == d.dest_id) := by
        rcases foldl_bestRow_mem _ _ _ hfold with hm | hm
        · exact hm
        · cases hm
      have ht0le := hbmax _ ht0mem
      rw [hgrp] at hbmem
      obtain ⟨s1, hs1, hbs1⟩ := List.mem_map.mp hbmem
      have hs1q := List.mem_filter.mp hs1
      have hs1s0 : s1 = s0 := by
        by_contra hne
        have hlt := hmax s1 (hperm.mem_iff.mp hs1q.1) hs1q.2 hne
        rw [← hbs1] at ht0le
        simp only at ht0le
        exact absurd (lt_of_le_of_lt ht0le hlt) (lt_irrefl _)
      -- the key is present, so find? over the distinct-on table returns rbest
      have hkey : d.dest_id ∈ ((joinedRows srcs' dests none none).map TmpRow.dest_id).dedup := by
        rw [List.mem_dedup]
        exact List.mem_map.mpr ⟨_, (List.mem_filter.mp ht0mem).1, rfl⟩
      have hfind : (distinctOnDest (joinedRows srcs' dests none none)).find?
          (fun r => r.dest_id == d.dest_id) = some rbest := by
        unfold distinctOnDest
        rw [find?_filterMap_keys _
          (fun k r h => (foldl_bestRow_filter_key _ k r h).1) _ (List.nodup_dedup _) _ hkey]
        exact hfold
      -- evaluate the update on row d
      unfold assignedVal add_highest_overlap_crosswalk applyCrosswalk
      rw [List.find?_map]
      have hpred : ((fun row : DestRow => row.dest_id == d.dest_id) ∘
          (updateRow (distinctOnDest (joinedRows srcs' dests none none)) none none)) =
          (fun d' : DestRow => d'.dest_id == d.dest_id) := by
        funext d'
        simp [Function.comp, updateRow_dest_id]
      rw [hpred, find?_dest_id_of_nodup dests d hd hndd, Option.map_some',
        Option.map_some']
      unfold updateRow
      rw [hfind]
      have hir : inRange none none d.dest_id = true := rfl
      show some (if inRange none none d.dest_id then
        { d with dest_new_col := some rbest.src_id } else d).dest_new_col = some (some s0.src_id)
      rw [if_pos hir, ← hbs1, hs1s0]

/-- C1 witness: destination square `[0,4]²`; source A `[0,3] × [0,4]`
(overlap area 12) uniquely beats source B `[3,5] × [0,4]` (overlap area 4);
both source orders assign A. -/
theorem crosswalk_unique_max_assigned_witness :
    0 < interArea (⟨0, 3, 0, 4⟩ : Rect) ⟨0, 4, 0, 4⟩ ∧
    assignedVal [⟨"D", ⟨0, 4, 0, 4⟩, none, "p"⟩]
      [⟨"B", ⟨3, 5, 0, 4⟩⟩, ⟨"A", ⟨0, 3, 0, 4⟩⟩] none none "D" = some (some "A") :=
  crosswalk_unique_max_assigned [⟨"D", ⟨0, 4, 0, 4⟩, none, "p"⟩]
    [⟨"A", ⟨0, 3, 0, 4⟩⟩, ⟨"B", ⟨3, 5, 0, 4⟩⟩]
    [⟨"B", ⟨3, 5, 0, 4⟩⟩, ⟨"A", ⟨0, 3, 0, 4⟩⟩]
    ⟨"D", ⟨0, 4, 0, 4⟩, none, "p"⟩ ⟨"A", ⟨0, 3, 0, 4⟩⟩
    (by decide) (by decide) (by decide) (by decide) (by decide) (by decide)

/-! ## C8: statement texts and parameter channels -/

theorem appears_mid (a v b : String) : appearsInText v (a ++ v ++ b) :=
  ⟨a.data, b.data, by simp [String.data_append]⟩

theorem appears_left (v p s : String) (h : appearsInText v s) :
    appearsInText v (p ++ s) := by
  obtain ⟨q, r, hq⟩ := h
  exact ⟨p.data ++ q, r, by rw [String.data_append, hq]; simp [List.append_assoc]⟩

theorem appears_right (v s q : String) (h : appearsInText v s) :
    appearsInText v (s ++ q) := by
  obtain ⟨p, r, hp⟩ := h
  exact ⟨p, r ++ q.data, by rw [String.data_append, hp]; simp [List.append_assoc]⟩

theorem crosswalk_cmd_interpolates_min (dt dri dnc stn sc tmp v : String) (hv : v ≠ "") :
    appearsInText v (crosswalk_cmd dt dri dnc stn sc tmp (some v) none) := by
  have htr : truthy (some v) = true := by simp [truthy, hv]
  have hwc : whereCond dri (some v) none = "dest." ++ dri ++ " >= '" ++ v ++ "'" := by
    unfold whereCond whereClauses
    rw [htr]
    rfl
  have hbeq : (whereCond dri (some v) none == "") = false := by
    rw [hwc]
    simp only [beq_eq_false_iff_ne, ne_eq]
    intro h
    have hlen := congrArg String.length h
    rw [String.length_append, String.length_append, String.length_append,
      String.length_append] at hlen
    have h5 : ("dest." : String).length = 5 := rfl
    have h1 : ("'" : String).length = 1 := rfl
    have h0 : ("" : String).length = 0 := rfl
    omega
  unfold crosswalk_cmd
  simp only [hbeq, Bool.false_eq_true, if_false, hwc]
  apply appears_right
  apply appears_left
  apply appears_left
  exact appears_mid ("dest." ++ dri ++ " >= '") v "'"

/-- C8 counterexample: the claim says every value in a crosswalk/geocode
executor call travels through the parameter channel and never appears in
the statement text; but a crosswalk invocation with
`dest_row_id_min = "9999"` interpolates the bound value verbatim into the
statement text and passes an empty parameter list. -/
theorem crosswalk_call_interpolates_value :
    appearsInText "9999" (crosswalk_call "blocks" "geoid" "tract_geoid" "tracts"
      "geoid" "tmp_crosswalk_0" (some "9999") none).1 ∧
    (crosswalk_call "blocks" "geoid" "tract_geoid" "tracts"
      "geoid" "tmp_crosswalk_0" (some "9999") none).2 = [] :=
  ⟨crosswalk_cmd_interpolates_min "blocks" "geoid" "tract_geoid" "tracts"
      "geoid" "tmp_crosswalk_0" "9999" (by decide), rfl⟩

/-- C8 (amended): the geocode lookup passes the address value purely through
the parameter channel — its statement text is one fixed string, independent
of the address — while the crosswalk builder interpolates not only the
operator-supplied identifiers but also the range-bound values directly into
its statement text, with an empty parameter channel. -/
theorem executor_value_channels (a a' : String) (m : Int)
    (dt dri dnc stn sc tmp v : String) (hv : v ≠ "") :
    (geocode_call a m).1 = (geocode_call a' m).1 ∧
    (geocode_call a m).2 = (a, m) ∧
    appearsInText v (crosswalk_call dt dri dnc stn sc tmp (some v) none).1 ∧
    (crosswalk_call dt dri dnc stn sc tmp (some v) none).2 = [] :=
  ⟨rfl, rfl, crosswalk_cmd_interpolates_min dt dri dnc stn sc tmp v hv, rfl⟩

/-- C8 amended-claim witness at concrete inputs. -/
theorem executor_value_channels_witness :
    ("10" : String) ≠ "" ∧
    ((geocode_call "12 Main St" 1).1 = (geocode_call "999 Elm St" 1).1 ∧
     (geocode_call "12 Main St" 1).2 = ("12 Main St", 1) ∧
     appearsInText "10" (crosswalk_call "blocks" "geoid" "tract_geoid" "tracts"
       "geoid" "tmp_crosswalk_0" (some "10") none).1 ∧
     (crosswalk_call "blocks" "geoid" "tract_geoid" "tracts"
       "geoid" "tmp_crosswalk_0" (some "10") none).2 = []) :=
  ⟨by decide, executor_value_channels "12 Main St" "999 Elm St" 1 "blocks" "geoid"
    "tract_geoid" "tracts" "geoid" "tmp_crosswalk_0" "10" (by decide)⟩

/-! ## C9: list-mode batch geocoding is index-stable -/

theorem batchInv_init {α : Type} (g : String → α) (addrs : List String) (nthreads : Nat) :
    batchInv g addrs nthreads (batchInit α addrs.length nthreads) := by
  unfold batchInv batchInit
  simp only
  refine ⟨List.length_replicate _ _, List.length_replicate _ _, le_refl _, ?_, ?_, ?_⟩
  · intro k hk hk2
    exact absurd hk2 (by omega)
  · intro w m hw
    rw [List.getElem?_replicate] at hw
    by_cases h : w < nthreads
    · rw [if_pos h] at hw
      cases Option.some.inj hw
    · rw [if_neg h] at hw
      cases hw
  · rintro ⟨w, hw⟩
    rw [List.getElem?_replicate] at hw
    by_cases h : w < nthreads
    · rw [if_pos h] at hw
      cases Option.some.inj hw
    · rw [if_neg h] at hw
      cases hw

theorem batchInv_step {α : Type} (g : String → α) (addrs : List String) (nthreads : Nat)
    (s s' : BatchState α) (hstep : BatchStep g addrs s s')
    (hinv : batchInv g addrs nthreads s) : batchInv g addrs nthreads s' := by
  obtain ⟨hlen, hwlen, hcnt, hmain, hhold, hret⟩ := hinv
  cases hstep with
  | claim w k hw hc =>
    dsimp only [batchInv]
    have hwlt : w < s.workers.length := by
      by_contra h
      rw [List.getElem?_eq_none (le_of_not_lt h)] at hw
      cases hw
    refine ⟨hlen, by rw [List.length_set]; exact hwlen, by omega, ?_, ?_, ?_⟩
    · intro j hj hjlen
      by_cases hjk : j = k
      · subst hjk
        right
        refine ⟨w, ?_⟩
        rw [List.getElem?_set, if_pos rfl, if_pos hwlt]
      · rcases hmain j (by omega) hjlen with hres | ⟨w', hw'⟩
        · exact Or.inl hres
        · right
          refine ⟨w', ?_⟩
          have hww : w ≠ w' := by
            intro h
            rw [h] at hw
            rw [hw] at hw'
            cases Option.some.inj hw'
          rw [List.getElem?_set, if_neg hww]
          exact hw'
    · intro w' m hw'
      rw [List.getElem?_set] at hw'
      by_cases hww : w = w'
      · rw [if_pos hww, if_pos (hww ▸ hwlt)] at hw'
        have hkm := Option.some.inj hw'
        injection hkm with hkm
        subst hkm
        exact ⟨le_refl _, by omega⟩
      · rw [if_neg hww] at hw'
        have := hhold w' m hw'
        exact ⟨by omega, this.2⟩
    · rintro ⟨w', hw'⟩
      rw [List.getElem?_set] at hw'
      by_cases hww : w = w'
      · rw [if_pos hww, if_pos (hww ▸ hwlt)] at hw'
        cases Option.some.inj hw'
      · rw [if_neg hww] at hw'
        have := hret ⟨w', hw'⟩
        omega
  | write w m hw =>
    dsimp only [batchInv]
    have hwlt : w < s.workers.length := by
      by_contra h
      rw [List.getElem?_eq_none (le_of_not_lt h)] at hw
      cases hw
    have hm := hhold w m hw
    refine ⟨by rw [List.length_set]; exact hlen, by rw [List.length_set]; exact hwlen,
      hcnt, ?_, ?_, ?_⟩
    · intro j hj hjlen
      by_cases hjm : j = m
      · subst hjm
        left
        rw [List.getElem?_set, if_pos rfl, if_pos (by rw [hlen]; exact hm.2)]
      · rcases hmain j hj hjlen with hres | ⟨w', hw'⟩
        · left
          rw [List.getElem?_set, if_neg (fun h => hjm h.symm)]
          exact hres
        · right
          refine ⟨w', ?_⟩
          have hww : w ≠ w' := by
            intro h
            rw [h] at hw
            rw [hw] at hw'
            have hmj := Option.some.inj hw'
            injection hmj with hmj
            exact hjm hmj.symm
          rw [List.getElem?_set, if_neg hww]
          exact hw'
    · intro w' m' hw'
      rw [List.getElem?_set] at hw'
      by_cases hww : w = w'
      · rw [if_pos hww, if_pos (hww ▸ hwlt)] at hw'
        cases Option.some.inj hw'
      · rw [if_neg hww] at hw'
        exact hhold w' m' hw'
    · rintro ⟨w', hw'⟩
      rw [List.getElem?_set] at hw'
      by_cases hww : w = w'
      · rw [if_pos hww, if_pos (hww ▸ hwlt)] at hw'
        cases Option.some.inj hw'
      · rw [if_neg hww] at hw'
        exact hret ⟨w', hw'⟩
  | exitEmpty w hw hc =>
    dsimp only [batchInv]
    have hwlt : w < s.workers.length := by
      by_contra h
      rw [List.getElem?_eq_none (le_of_not_lt h)] at hw
      cases hw
    refine ⟨hlen, by rw [List.length_set]; exact hwlen, by omega, ?_, ?_, ?_⟩
    · intro j hj hjlen
      rcases hmain j (by omega) hjlen with hres | ⟨w', hw'⟩
      · exact Or.inl hres
      · right
        refine ⟨w', ?_⟩
        have hww : w ≠ w' := by
          intro h
          rw [h] at hw
          rw [hw] at hw'
          cases Option.some.inj hw'
        rw [List.getElem?_set, if_neg hww]
        exact hw'
    · intro w' m hw'
      rw [List.getElem?_set] at hw'
      by_cases hww : w = w'
      · rw [if_pos hww, if_pos (hww ▸ hwlt)] at hw'
        cases Option.some.inj hw'
      · rw [if_neg hww] at hw'
        have := hhold w' m hw'
        exact ⟨by omega, this.2⟩
    · intro _
      rfl

theorem batchInv_reach {α : Type} (g : String → α) (addrs : List String) (nthreads : Nat)
    (s : BatchState α)
    (hr : Relation.ReflTransGen (BatchStep g addrs) (batchInit α addrs.length nthreads) s) :
    batchInv g addrs nthreads s := by
  induction hr with
  | refl => exact batchInv_init g addrs nthreads
  | tail _ h2 ih => exact batchInv_step g addrs nthreads _ _ h2 ih

/-- C9 (amended to at least one worker): any completed run of the list-mode
batch geocoder — any interleaving of claim/write/exit steps from the
initial state after which every worker has returned — leaves a results
array of length `n` whose entry at position `i` is exactly the geocode
result of the address at input position `i`. -/
theorem geocode_batch_index_stable {α : Type} (g : String → α) (addrs : List String)
    (nthreads : Nat) (hn : 1 ≤ nthreads) (s : BatchState α)
    (hr : Relation.ReflTransGen (BatchStep g addrs) (batchInit α addrs.length nthreads) s)
    (hdone : allReturned s) :
    s.results.length = addrs.length ∧ s.results = addrs.map (fun a => some (g a)) := by
  obtain ⟨hlen, hwlen, hcnt, hmain, hhold, hret⟩ := batchInv_reach g addrs nthreads s hr
  have hc0 : s.counter = 0 := by
    apply hret
    have hw0 : 0 < s.workers.length := by omega
    refine ⟨0, ?_⟩
    rw [List.getElem?_eq_getElem hw0, hdone _ (List.getElem_mem hw0)]
  refine ⟨hlen, ?_⟩
  apply List.ext_getElem?
  intro j
  by_cases hj : j < addrs.length
  · rcases hmain j (by omega) hj with hres | ⟨w', hw'⟩
    · rw [hres, List.getElem?_map, List.getElem?_eq_getElem hj, Option.map_some']
      have hgd : addrs.getD j "" = addrs[j] := by
        rw [List.getD_eq_getElem?_getD, List.getElem?_eq_getElem hj]
        rfl
      rw [hgd]
    · exfalso
      have hmem : WStat.holding j ∈ s.workers := by
        obtain ⟨hlt, he⟩ := List.getElem?_eq_some.mp hw'
        exact he ▸ List.getElem_mem hlt
      cases hdone _ hmem
  · rw [List.getElem?_eq_none (by omega),
      List.getElem?_eq_none (by rw [List.length_map]; omega)]

/-- C9 counterexample: with worker count 0 the run is already complete (all
zero workers have returned, the initial state is reachable in zero steps),
yet entry 0 of the results is `none` — not the geocode result of `"A"` — so
the claim fails for worker count 0. -/
theorem geocode_batch_zero_workers :
    allReturned (batchInit Nat (["A", "B", "C"].length) 0) ∧
    Relation.ReflTransGen (BatchStep (fun _ => 0) ["A", "B", "C"])
      (batchInit Nat (["A", "B", "C"].length) 0)
      (batchInit Nat (["A", "B", "C"].length) 0) ∧
    (batchInit Nat (["A", "B", "C"].length) 0).results[0]? = some none ∧
    (batchInit Nat (["A", "B", "C"].length) 0).results[0]? ≠
      some (some ((fun _ => 0) "A")) := by
  refine ⟨?_, Relation.ReflTransGen.refl, rfl, ?_⟩
  · intro w hw
    cases hw
  · intro h
    cases Option.some.inj h

/-- C9 amended-claim witness: a concrete completed run with one worker and
one address, built step by step, yields `[some (g "A")]`. -/
theorem geocode_batch_index_stable_witness :
    (1 ≤ 1) ∧
    ((⟨0, [some ((fun _ => 7) "A")], [WStat.returned]⟩ : BatchState Nat).results.length =
      ["A"].length ∧
     (⟨0, [some ((fun _ => 7) "A")], [WStat.returned]⟩ : BatchState Nat).results =
      ["A"].map (fun a => some ((fun _ => 7) a))) := by
  refine ⟨le_refl 1, ?_⟩
  have h1 : BatchStep (fun _ => 7) ["A"] (batchInit Nat (["A"].length) 1)
      ⟨0, (batchInit Nat (["A"].length) 1).results,
        (batchInit Nat (["A"].length) 1).workers.set 0 (WStat.holding 0)⟩ :=
    BatchStep.claim _ 0 0 rfl rfl
  have h2 : BatchStep (fun _ => 7) ["A"]
      (⟨0, [none], [WStat.holding 0]⟩ : BatchState Nat)
      ⟨0, ([none] : List (Option Nat)).set 0 (some ((fun _ => 7) (["A"].getD 0 ""))),
        ([WStat.holding 0].set 0 WStat.idle)⟩ :=
    BatchStep.write _ 0 0 rfl
  have h3 : BatchStep (fun _ => 7) ["A"]
      (⟨0, [some 7], [WStat.idle]⟩ : BatchState Nat)
      ⟨0, [some 7], ([WStat.idle].set 0 WStat.returned)⟩ :=
    BatchStep.exitEmpty _ 0 rfl rfl
  have hr : Relation.ReflTransGen (BatchStep (fun _ => 7) ["A"])
      (batchInit Nat (["A"].length) 1) (⟨0, [some 7], [WStat.returned]⟩ : BatchState Nat) :=
    Relation.ReflTransGen.tail (Relation.ReflTransGen.tail
      (Relation.ReflTransGen.tail Relation.ReflTransGen.refl h1) h2) h3
  exact geocode_batch_index_stable (fun _ => 7) ["A"] 1 (le_refl 1) _ hr
    (by intro w hw; cases hw with | head => rfl | tail _ hw' => cases hw')

end Epsql
